import Mathlib

/-!
# Verification of the Asta front-end core utilities

A shallow embedding, in Lean 4, of the two hand-rolled utilities of the
AstaClient/asta repository — the bounded-retry fetch wrapper of
`src/js/utils.js` (`fetchWithErrorHandling`, `handleNetworkError`, `delay`)
and the declarative form validator (`FormValidator.validate`,
`displayErrors`, `clearErrors`, `validateEmail`) — together with the stats
polling module of `src/js/stats.js` (`StatsModule.getOnlinePlayersCount`,
`StatsModule.updateStats`).

JavaScript strings are modelled by Lean `String` (ASCII inputs make the
`.length` / `.trim` conventions agree), JavaScript numbers occurring as
player counts by `Int`, and the attribute values of `minlength` /
`maxlength` by their parsed numeric content (`Option Nat`, `none` when the
attribute is absent), matching `parseInt` on canonical numeric attributes.
The external regular-expression engine used for the `pattern` attribute is
a parameter (`regexTest`); the one regular expression the code owns, the
email shape, is embedded directly.
-/

namespace Asta

/-! ## Email validation (`FormValidator.validateEmail`, src/js/utils.js:207-210)

The source tests the string against `^[^\s@]+@[^\s@]+\.[^\s@]+$`.  The
character class `[^\s@]` is embedded as `okChar`; the anchored regular
expression is decided by a recursive matcher.  The local part is forced:
`[^\s@]+` can only consume the characters up to the first `@`.  Inside the
domain, a `.` may either be the literal dot of the pattern or an ordinary
class character, so the matcher tries both. -/

/-- The character class `[^\s@]`: neither whitespace nor `@`. -/
def okChar (c : Char) : Bool :=
  !c.isWhitespace && c != '@'

/-- Matches `[^\s@]+$`: a nonempty run of class characters. -/
def tailSeg : List Char → Bool
  | [] => false
  | c :: cs => okChar c && cs.all okChar

/-- Matches `[^\s@]*\.[^\s@]+$`: a `.` may serve as the pattern's literal
dot or as one more class character. -/
def domRest : List Char → Bool
  | [] => false
  | c :: cs => (c = '.' && tailSeg cs) || (okChar c && domRest cs)

/-- Matches `[^\s@]+\.[^\s@]+$`: the domain part after the `@`. -/
def afterAt : List Char → Bool
  | [] => false
  | c :: cs => okChar c && domRest cs

/-- Matches `[^\s@]*@[^\s@]+\.[^\s@]+$` after at least one local
character has been consumed. -/
def localRest : List Char → Bool
  | [] => false
  | c :: cs => if c = '@' then afterAt cs else okChar c && localRest cs

/-- Matches the full anchored pattern `^[^\s@]+@[^\s@]+\.[^\s@]+$` on a
character list. -/
def emailMatch : List Char → Bool
  | [] => false
  | c :: cs => okChar c && localRest cs

/-- `FormValidator.validateEmail` (src/js/utils.js:207-210): the anchored
regular expression `^[^\s@]+@[^\s@]+\.[^\s@]+$` applied to the string. -/
def validateEmail (email : String) : Bool :=
  emailMatch email.data

/-- The shape the specification describes: non-whitespace/non-`@` sequence,
`@`, non-whitespace/non-`@` sequence, `.`, non-whitespace/non-`@`
sequence.  Stated over the character list of the string. -/
def EmailShape (email : String) : Prop :=
  ∃ a b c : List Char,
    a ≠ [] ∧ b ≠ [] ∧ c ≠ [] ∧
    (∀ x ∈ a, okChar x) ∧ (∀ x ∈ b, okChar x) ∧ (∀ x ∈ c, okChar x) ∧
    email.data = a ++ '@' :: (b ++ '.' :: c)

/-! ## Resilient fetch (`fetchWithErrorHandling`, src/js/utils.js:10-41)

One invocation is modelled as a pure function of the environment: the
outcome of each numbered attempt (`attempts : Nat → AttemptResult α`,
attempt numbers starting at 1, where `.ok` means transport success *and*
the body decoded as JSON — a decode failure throws inside the `try` and is
caught like any other attempt failure) and the `navigator.onLine` flag read
by `handleNetworkError`.  The function returns a trace: how many attempts
ran, the delays awaited between attempts (in order), the final result, the
toast emitted (at most one, by `handleNetworkError` via `showErrorToast`),
and whether the diagnostic `console.error` ran. -/

/-- A JavaScript error value; only its `name` is inspected
(`error.name === 'AbortError'` marks the timeout abort). -/
structure JsError where
  name : String
  deriving DecidableEq, Repr

/-- What one attempt of the loop body produces: a decoded payload, or a
thrown error (network failure, abort, non-ok HTTP status, decode failure). -/
inductive AttemptResult (α : Type) where
  | ok (payload : α)
  | fail (e : JsError)
  deriving DecidableEq, Repr

/-- How one whole call ends: the returned payload, the propagated error, or
`undefined` (falling out of the loop, possible only when `maxRetries = 0`). -/
inductive FetchRes (α : Type) where
  | success (payload : α)
  | thrown (e : JsError)
  | undef
  deriving DecidableEq, Repr

/-- The observable trace of one `fetchWithErrorHandling` call. -/
structure FetchOutcome (α : Type) where
  attemptsMade : Nat
  delays : List Nat
  result : FetchRes α
  toast : Option String
  logged : Bool
  deriving DecidableEq, Repr

/-- `const maxRetries = 3` (src/js/utils.js:11). -/
def maxRetries : Nat := 3

/-- `const retryDelay = 1000` (src/js/utils.js:12). -/
def retryDelay : Nat := 1000

/-- Toast text for the abort/timeout classification (src/js/utils.js:46). -/
def timeoutMessage : String := "Превышено время ожидания. Проверьте соединение"

/-- Toast text for the offline classification (src/js/utils.js:48). -/
def offlineMessage : String := "Нет подключения к интернету"

/-- Toast text for the generic classification (src/js/utils.js:50). -/
def connectionMessage : String := "Ошибка соединения. Попробуйте позже"

/-- `handleNetworkError` (src/js/utils.js:44-52): picks the toast text from
the error's name and `navigator.onLine`.  (The `console.error` it also
performs is recorded in the trace by the caller.) -/
def handleNetworkError (onLine : Bool) (e : JsError) : String :=
  if e.name = "AbortError" then timeoutMessage
  else if onLine = false then offlineMessage
  else connectionMessage

/-- The retry loop of `fetchWithErrorHandling` (src/js/utils.js:14-40),
recursing on the number of attempts still allowed (`k`), with `i` the
current attempt number: on success return the payload; on failure of the
last allowed attempt (`attempt === maxRetries`) call `handleNetworkError`
and rethrow; otherwise `await delay(retryDelay * attempt)` and retry. -/
def fetchGo {α : Type} (onLine : Bool) (attempts : Nat → AttemptResult α)
    (baseDelay : Nat) (i : Nat) : Nat → FetchOutcome α
  | 0 => ⟨0, [], .undef, none, false⟩
  | k + 1 =>
    match attempts i with
    | .ok p => ⟨1, [], .success p, none, false⟩
    | .fail e =>
      if k = 0 then
        ⟨1, [], .thrown e, some (handleNetworkError onLine e), true⟩
      else
        let rest := fetchGo onLine attempts baseDelay (i + 1) k
        ⟨rest.attemptsMade + 1, baseDelay * i :: rest.delays,
          rest.result, rest.toast, rest.logged⟩

/-- `fetchWithErrorHandling` (src/js/utils.js:10-41): the loop entered at
attempt 1 with the constant budget `maxRetries` and base delay
`retryDelay`. -/
def fetchWithErrorHandling {α : Type} (onLine : Bool)
    (attempts : Nat → AttemptResult α) : FetchOutcome α :=
  fetchGo onLine attempts retryDelay 1 maxRetries

/-! ## Form validator (`FormValidator.validate`, src/js/utils.js:87-147)

A form is the list of its form elements in document order.  Each element
carries the attributes the validator reads: its tag, `name`, `type`,
whether `required` is set, the `minlength` / `maxlength` attributes
(modelled by their parsed numeric content, `none` when absent), the
`pattern` and `title` attributes, the `placeholder` property ( `none` for
absent), and its current value (what `FormData` reports for it).  JavaScript
string `.length` is modelled by `String.length` and `.trim()` by
`String.trim` (they agree on the ASCII data the validator handles).  The
`pattern` attribute is tested through an external engine `regexTest
pattern value`, a parameter of the embedding. -/

/-- One form element with the attributes `FormValidator.validate` reads. -/
structure Field where
  tag : String
  name : String
  type : String
  required : Bool
  minlength : Option Nat
  maxlength : Option Nat
  pattern : Option String
  title : Option String
  placeholder : Option String
  value : String
  deriving DecidableEq, Repr

/-- `{valid: boolean, errors: Object}` — the errors object is its ordered
key/value entries. -/
structure ValidationResult where
  valid : Bool
  errors : List (String × String)
  deriving DecidableEq, Repr

/-- `x || y` on an optional string, with JavaScript falsiness: an absent or
empty string falls back. -/
def orFalsy (x : Option String) (y : String) : String :=
  match x with
  | some s => if s = "" then y else s
  | none => y

/-- The required-field message (src/js/utils.js:104):
`Поле "<placeholder||name>" обязательно для заполнения`. -/
def requiredMessage (f : Field) : String :=
  "Поле \x22" ++ orFalsy f.placeholder f.name ++ "\x22 обязательно для заполнения"

/-- The email-format message (src/js/utils.js:111). -/
def emailMessage : String := "Введите корректный email адрес"

/-- The password-length message (src/js/utils.js:118). -/
def passwordMessage (n : Nat) : String :=
  "Пароль должен содержать минимум " ++ toString n ++ " символов"

/-- The min-length message (src/js/utils.js:126). -/
def minLengthMessage (n : Nat) : String :=
  "Минимальная длина: " ++ toString n ++ " символов"

/-- The max-length message (src/js/utils.js:134). -/
def maxLengthMessage (n : Nat) : String :=
  "Максимальная длина: " ++ toString n ++ " символов"

/-- The pattern message (src/js/utils.js:141): the `title` attribute when
present and nonempty, else `Неверный формат`. -/
def patternMessage (f : Field) : String :=
  orFalsy f.title "Неверный формат"

/-- The tags of `form.querySelectorAll('input[required], textarea[required],
select[required]')` (src/js/utils.js:92). -/
def selTags : List String := ["input", "textarea", "select"]

/-- The fields the validator iterates over (src/js/utils.js:92): the form's
elements that carry `required` and are `input`/`textarea`/`select`. -/
def formRequiredFields (form : List Field) : List Field :=
  form.filter (fun f => f.required && decide (f.tag ∈ selTags))

/-- `formData.get(fieldName)` (src/js/utils.js:96): the value of the first
form element with that name, `null` when there is none. -/
def formGet (form : List Field) (n : String) : Option String :=
  (form.find? (fun f => decide (f.name = n))).map (·.value)

/-- `!fieldValue || fieldValue.trim() === ''` for a present value: the
string trims to nothing exactly when every character is whitespace. -/
def isBlank (v : String) : Bool :=
  v.data.all (·.isWhitespace)

/-- The body of the `fields.forEach` callback (src/js/utils.js:95-144),
as the error entry it leaves for the field: `none` when the field violates
no rule.  An empty or whitespace-only (or `null`) value yields the
required message and skips every later rule (the early `return`); otherwise
each later matching rule overwrites the entry left by the earlier ones. -/
def checkFieldValue (regexTest : String → String → Bool) (f : Field)
    (fieldValue : Option String) : Option String :=
  match fieldValue with
  | none => some (requiredMessage f)
  | some v =>
    if isBlank v then some (requiredMessage f)
    else
      let e : Option String := none
      let e := if f.type = "email" ∧ ¬validateEmail v then some emailMessage else e
      let e := if f.type = "password" ∧ v.length < f.minlength.getD 8 then
        some (passwordMessage (f.minlength.getD 8)) else e
      let e := match f.minlength with
        | some m => if v.length < m then some (minLengthMessage m) else e
        | none => e
      let e := match f.maxlength with
        | some m => if v.length > m then some (maxLengthMessage m) else e
        | none => e
      match f.pattern with
      | some p => if ¬regexTest p v then some (patternMessage f) else e
      | none => e

/-- `errors[fieldName] = msg` on a JavaScript object: overwrite the value
at an existing key (keeping its position), else append a new entry. -/
def insertOv (l : List (String × String)) (k v : String) :
    List (String × String) :=
  if l.any (fun p => decide (p.1 = k)) then
    l.map (fun p => if p.1 = k then (k, v) else p)
  else l ++ [(k, v)]

/-- `errors[fieldName]` read back: the entry stored at the key. -/
def errorsGet (l : List (String × String)) (k : String) : Option String :=
  (l.find? (fun p => decide (p.1 = k))).map (·.2)

/-- `FormValidator.validate` (src/js/utils.js:87-147): fold the per-field
check over the required fields, then `valid` is the emptiness of the error
object. -/
def validate (regexTest : String → String → Bool) (form : List Field) :
    ValidationResult :=
  let errors := (formRequiredFields form).foldl
    (fun errs f =>
      match checkFieldValue regexTest f (formGet form f.name) with
      | some msg => insertOv errs f.name msg
      | none => errs) []
  ⟨errors.isEmpty, errors⟩

/-! ## Error display (`displayErrors` / `clearErrors`, src/js/utils.js:153-200)

The document is the list of its elements in document order; an element
keeps what these two methods read and write: its `id`, its `name`
attribute, its class list, its text content and its `style.display`.
`querySelector`/`querySelectorAll` order is the list order. -/

/-- One DOM element, restricted to what the error display touches. -/
structure Elem where
  id : String
  name : Option String
  classes : List String
  textContent : String
  display : String
  deriving DecidableEq, Repr

/-- `classList.add`: token lists hold no duplicates. -/
def addClass (e : Elem) (c : String) : Elem :=
  if c ∈ e.classes then e else {e with classes := e.classes ++ [c]}

/-- `classList.remove`. -/
def removeClass (e : Elem) (c : String) : Elem :=
  {e with classes := e.classes.filter (fun x => decide (x ≠ c))}

/-- First pass of `clearErrors` (src/js/utils.js:191-192): every element
matching `.error` loses that class. -/
def clearStep1 (e : Elem) : Elem :=
  if "error" ∈ e.classes then removeClass e "error" else e

/-- Second pass of `clearErrors` (src/js/utils.js:195-199): every element
matching `.error-message` gets empty text and `display: none`. -/
def clearStep2 (e : Elem) : Elem :=
  if "error-message" ∈ e.classes then
    {e with textContent := "", display := "none"}
  else e

/-- `FormValidator.clearErrors` (src/js/utils.js:189-200). -/
def clearErrors (d : List Elem) : List Elem :=
  (d.map clearStep1).map clearStep2

/-- Apply `f` to the first element satisfying `p` (what a write through
`querySelector`/`getElementById` touches). -/
def updateFirst (p : Elem → Bool) (f : Elem → Elem) : List Elem → List Elem
  | [] => []
  | e :: es => if p e then f e :: es else e :: updateFirst p f es

/-- Insert `x` right after the first element satisfying `p`
(`field.parentNode.insertBefore(errorElement, field.nextSibling)`). -/
def insertAfterFirst (p : Elem → Bool) (x : Elem) : List Elem → List Elem
  | [] => []
  | e :: es => if p e then e :: x :: es else e :: insertAfterFirst p x es

/-- `errorElement.textContent = msg; errorElement.style.display = 'block'`
(src/js/utils.js:178-179). -/
def setMessage (e : Elem) (msg : String) : Elem :=
  {e with textContent := msg, display := "block"}

/-- The body of the per-entry loop of `displayErrors`
(src/js/utils.js:157-180): find the field by name (skip the entry when
there is none), mark it `.error`, find or create the `<name>-error`
element (a fresh one is a span with class `error-message` inserted after
the field), and set its text and `display: block`. -/
def displayOne (d : List Elem) (fieldName msg : String) : List Elem :=
  match d.find? (fun e => decide (e.name = some fieldName)) with
  | none => d
  | some _ =>
    let d1 := updateFirst (fun e => decide (e.name = some fieldName))
      (fun e => addClass e "error") d
    let d2 :=
      if d1.any (fun e => decide (e.id = fieldName ++ "-error")) then d1
      else insertAfterFirst (fun e => decide (e.name = some fieldName))
        ⟨fieldName ++ "-error", none, ["error-message"], "", ""⟩ d1
    updateFirst (fun e => decide (e.id = fieldName ++ "-error"))
      (fun e => setMessage e msg) d2

/-- `FormValidator.displayErrors` (src/js/utils.js:153-184): clear all
previous annotations, then show each entry in order. -/
def displayErrors (errors : List (String × String)) (d : List Elem) :
    List Elem :=
  errors.foldl (fun dd kv => displayOne dd kv.1 kv.2) (clearErrors d)

/-! ## Stats module (`StatsModule`, src/js/stats.js)

`getOnlinePlayersCount` (src/js/stats.js:19-38) is a function of the
instance's `lastKnownCount` and of what `await
fetchWithErrorHandling(this.apiEndpoint)` did: returned decoded data
(possibly `null`, possibly lacking a numeric `onlinePlayers`), returned
`undefined`, or threw.  It yields the value returned to the caller
together with the new `lastKnownCount`. -/

/-- A decoded JSON field value, as far as `typeof x === 'number'` looks. -/
inductive JsValue where
  | num (n : Int)
  | other
  deriving DecidableEq, Repr

/-- The decoded stats payload: its `onlinePlayers` member (`none` when the
member is absent). -/
structure StatsData where
  onlinePlayers : Option JsValue
  deriving DecidableEq, Repr

/-- `StatsModule.getOnlinePlayersCount` (src/js/stats.js:19-38):
`(value returned, new lastKnownCount)`.  A numeric `onlinePlayers` is
stored and returned; data without one yields `lastKnownCount ?? 0`; a
thrown fetch is caught, logged and yields `lastKnownCount` (possibly
`null`).  No path rethrows. -/
def getOnlinePlayersCount (lastKnownCount : Option Int)
    (r : FetchRes (Option StatsData)) : Option Int × Option Int :=
  match r with
  | .success (some data) =>
    match data.onlinePlayers with
    | some (.num n) => (some n, some n)
    | _ => (some (lastKnownCount.getD 0), lastKnownCount)
  | .success none => (some (lastKnownCount.getD 0), lastKnownCount)
  | .undef => (some (lastKnownCount.getD 0), lastKnownCount)
  | .thrown _ => (lastKnownCount, lastKnownCount)

/-! ### The reentrancy guard of `updateStats` (src/js/stats.js:73-94)

`updateStats` runs on the single JavaScript event loop; its only
suspension point is the `await` of `getOnlinePlayersCount`, so one
invocation is two atomic pieces: the synchronous prefix (the
`if (this.isUpdating) return;` guard and `this.isUpdating = true;`,
src/js/stats.js:74-78) and the resumption after the `await` (display the
result, then the `finally` clears the flag, src/js/stats.js:80-93).  The
interleaving of invocations is a labelled transition system over the
module's state: the flag, how many cycles are between their two pieces
(`running`), and the displayed stats text. -/

/-- The module state the guard protects. -/
structure StatsState where
  isUpdating : Bool
  running : Nat
  displayed : String
  deriving DecidableEq, Repr

/-- What a transition is: a tick that saw the flag and returned
(`skipTick`), a tick that passed the guard, set the flag and started a
fetch (`beginCycle`), or a running cycle resuming after its `await`,
updating the display and clearing the flag in `finally` (`endCycle`). -/
inductive UpdateLabel where
  | skipTick
  | beginCycle
  | endCycle
  deriving DecidableEq, Repr

/-- The transitions of `updateStats` (src/js/stats.js:73-94). -/
inductive UpdateStep : StatsState → UpdateLabel → StatsState → Prop where
  | skip (s : StatsState) : s.isUpdating = true → UpdateStep s .skipTick s
  | start (s : StatsState) : s.isUpdating = false →
      UpdateStep s .beginCycle
        {s with isUpdating := true, running := s.running + 1}
  | finish (s : StatsState) (shown : String) : 0 < s.running →
      UpdateStep s .endCycle
        ⟨false, s.running - 1, shown⟩

/-- The constructor's state (src/js/stats.js:8-13): `isUpdating = false`,
nothing running, nothing displayed yet. -/
def statsInit : StatsState := ⟨false, 0, ""⟩

/-- The states an execution can reach from `statsInit` by interleaved
ticks and resumptions. -/
def StatsReachable (s : StatsState) : Prop :=
  Relation.ReflTransGen (fun a b => ∃ l, UpdateStep a l b) statsInit s

/-! ## Lemmas: the email matcher decides the specified shape -/

lemma tailSeg_iff (cs : List Char) :
    tailSeg cs = true ↔ cs ≠ [] ∧ ∀ x ∈ cs, okChar x := by
  cases cs with
  | nil => simp [tailSeg]
  | cons c cs =>
    simp [tailSeg, List.all_eq_true, Bool.and_eq_true]

lemma domRest_iff (cs : List Char) :
    domRest cs = true ↔
      ∃ b c : List Char, (∀ x ∈ b, okChar x) ∧ c ≠ [] ∧ (∀ x ∈ c, okChar x) ∧
        cs = b ++ '.' :: c := by
  induction cs with
  | nil =>
    simp [domRest]
  | cons d ds ih =>
    constructor
    · intro h
      simp only [domRest, Bool.or_eq_true, Bool.and_eq_true, decide_eq_true_eq] at h
      rcases h with ⟨hd, ht⟩ | ⟨hok, hrest⟩
      · rcases (tailSeg_iff ds).1 ht with ⟨hne, hall⟩
        exact ⟨[], ds, by simp, hne, hall, by simp [hd]⟩
      · rcases ih.1 hrest with ⟨b, c, hb, hc, hcall, heq⟩
        refine ⟨d :: b, c, ?_, hc, hcall, by simp [heq]⟩
        intro x hx
        rcases List.mem_cons.1 hx with rfl | hx
        · exact hok
        · exact hb x hx
    · rintro ⟨b, c, hb, hc, hcall, heq⟩
      cases b with
      | nil =>
        simp only [List.nil_append] at heq
        injection heq with h1 h2
        subst h1
        subst h2
        simp only [domRest, Bool.or_eq_true, Bool.and_eq_true]
        left
        exact ⟨by simp, (tailSeg_iff _).2 ⟨hc, hcall⟩⟩
      | cons b0 bs =>
        simp only [List.cons_append, List.cons.injEq] at heq
        rcases heq with ⟨rfl, heq⟩
        simp only [domRest, Bool.or_eq_true, Bool.and_eq_true]
        right
        refine ⟨hb _ (List.mem_cons_self _ _), ih.2 ⟨bs, c, ?_, hc, hcall, heq⟩⟩
        intro x hx
        exact hb x (List.mem_cons_of_mem _ hx)

lemma afterAt_iff (cs : List Char) :
    afterAt cs = true ↔
      ∃ b c : List Char, b ≠ [] ∧ c ≠ [] ∧
        (∀ x ∈ b, okChar x) ∧ (∀ x ∈ c, okChar x) ∧ cs = b ++ '.' :: c := by
  cases cs with
  | nil => simp [afterAt]
  | cons d ds =>
    constructor
    · intro h
      simp only [afterAt, Bool.and_eq_true] at h
      rcases h with ⟨hok, hrest⟩
      rcases (domRest_iff ds).1 hrest with ⟨b, c, hb, hc, hcall, heq⟩
      refine ⟨d :: b, c, by simp, hc, ?_, hcall, by simp [heq]⟩
      intro x hx
      rcases List.mem_cons.1 hx with rfl | hx
      · exact hok
      · exact hb x hx
    · rintro ⟨b, c, hbne, hc, hb, hcall, heq⟩
      cases b with
      | nil => exact absurd rfl hbne
      | cons b0 bs =>
        simp only [List.cons_append, List.cons.injEq] at heq
        rcases heq with ⟨rfl, heq⟩
        simp only [afterAt, Bool.and_eq_true]
        refine ⟨hb _ (List.mem_cons_self _ _), (domRest_iff ds).2 ⟨bs, c, ?_, hc, hcall, heq⟩⟩
        intro x hx
        exact hb x (List.mem_cons_of_mem _ hx)

lemma localRest_iff (cs : List Char) :
    localRest cs = true ↔
      ∃ a d : List Char, (∀ x ∈ a, okChar x) ∧ afterAt d = true ∧
        cs = a ++ '@' :: d := by
  induction cs with
  | nil =>
    simp [localRest]
  | cons c cs ih =>
    by_cases hc : c = '@'
    · subst hc
      constructor
      · intro h
        simp only [localRest, if_pos rfl] at h
        exact ⟨[], cs, by simp, h, by simp⟩
      · rintro ⟨a, d, ha, hd, heq⟩
        cases a with
        | nil =>
          simp only [List.nil_append] at heq
          injection heq with h1 h2
          subst h2
          simpa [localRest] using hd
        | cons a0 as =>
          simp only [List.cons_append, List.cons.injEq] at heq
          rcases heq with ⟨rfl, heq⟩
          have := ha _ (List.mem_cons_self _ _)
          exact absurd this (by decide)
    · constructor
      · intro h
        simp only [localRest, if_neg hc, Bool.and_eq_true] at h
        rcases h with ⟨hok, hrest⟩
        rcases ih.1 hrest with ⟨a, d, ha, hd, heq⟩
        refine ⟨c :: a, d, ?_, hd, by simp [heq]⟩
        intro x hx
        rcases List.mem_cons.1 hx with rfl | hx
        · exact hok
        · exact ha x hx
      · rintro ⟨a, d, ha, hd, heq⟩
        cases a with
        | nil =>
          simp only [List.nil_append, List.cons.injEq] at heq
          exact absurd heq.1 hc
        | cons a0 as =>
          simp only [List.cons_append, List.cons.injEq] at heq
          rcases heq with ⟨rfl, heq⟩
          simp only [localRest, if_neg hc, Bool.and_eq_true]
          exact ⟨ha _ (List.mem_cons_self _ _), ih.2 ⟨as, d, fun x hx => ha x (List.mem_cons_of_mem _ hx), hd, heq⟩⟩

lemma emailMatch_iff (l : List Char) :
    emailMatch l = true ↔
      ∃ a b c : List Char,
        a ≠ [] ∧ b ≠ [] ∧ c ≠ [] ∧
        (∀ x ∈ a, okChar x) ∧ (∀ x ∈ b, okChar x) ∧ (∀ x ∈ c, okChar x) ∧
        l = a ++ '@' :: (b ++ '.' :: c) := by
  cases l with
  | nil =>
    simp only [emailMatch, Bool.false_eq_true, false_iff]
    rintro ⟨a, b, c, hane, _, _, _, _, _, heq⟩
    cases a with
    | nil => exact absurd rfl hane
    | cons a0 as => simp at heq
  | cons c0 cs =>
    constructor
    · intro h
      simp only [emailMatch, Bool.and_eq_true] at h
      rcases h with ⟨hok, hrest⟩
      rcases (localRest_iff cs).1 hrest with ⟨a, d, ha, hd, heq⟩
      rcases (afterAt_iff d).1 hd with ⟨b, c, hbne, hcne, hb, hcall, hdeq⟩
      refine ⟨c0 :: a, b, c, by simp, hbne, hcne, ?_, hb, hcall, ?_⟩
      · intro x hx
        rcases List.mem_cons.1 hx with rfl | hx
        · exact hok
        · exact ha x hx
      · rw [heq, hdeq]
        simp
    · rintro ⟨a, b, c, hane, hbne, hcne, ha, hb, hcall, heq⟩
      cases a with
      | nil => exact absurd rfl hane
      | cons a0 as =>
        simp only [List.cons_append, List.cons.injEq] at heq
        rcases heq with ⟨rfl, heq⟩
        simp only [emailMatch, Bool.and_eq_true]
        refine ⟨ha _ (List.mem_cons_self _ _), (localRest_iff cs).2
          ⟨as, b ++ '.' :: c, fun x hx => ha x (List.mem_cons_of_mem _ hx), ?_, heq⟩⟩
        exact (afterAt_iff _).2 ⟨b, c, hbne, hcne, hb, hcall, rfl⟩

lemma validateEmail_iff_shape (s : String) :
    validateEmail s = true ↔ EmailShape s :=
  emailMatch_iff s.data

/-! ## Lemmas: the error object and the error display -/

lemma mem_insertOv {l : List (String × String)} {k v : String} {p : String × String}
    (hp : p ∈ insertOv l k v) : p ∈ l ∨ p = (k, v) ∨ p.1 = k := by
  unfold insertOv at hp
  split at hp
  · rcases List.mem_map.1 hp with ⟨q, hq, hqe⟩
    by_cases h : q.1 = k
    · simp only [if_pos h] at hqe
      exact .inr (.inl hqe.symm)
    · simp only [if_neg h] at hqe
      exact .inl (hqe ▸ hq)
  · rcases List.mem_append.1 hp with h | h
    · exact .inl h
    · exact .inr (.inl (List.mem_singleton.1 h))

lemma errorsGet_isSome_iff (l : List (String × String)) (n : String) :
    (errorsGet l n).isSome ↔ ∃ p ∈ l, p.1 = n := by
  unfold errorsGet
  constructor
  · intro h
    rcases hq : List.find? (fun p => decide (p.1 = n)) l with _ | q
    · rw [hq] at h
      simp at h
    · exact ⟨q, List.mem_of_find?_eq_some hq, by simpa using List.find?_some hq⟩
  · rintro ⟨p, hp, hpn⟩
    rcases hq : List.find? (fun p => decide (p.1 = n)) l with _ | q
    · have := List.find?_eq_none.1 hq p hp
      simp [hpn] at this
    · rw [hq]
      simp

lemma validate_fold_keys (regexTest : String → String → Bool) (form : List Field)
    (fs : List Field) (init : List (String × String)) (n : String)
    (h : (errorsGet (fs.foldl (fun errs f =>
        match checkFieldValue regexTest f (formGet form f.name) with
        | some msg => insertOv errs f.name msg
        | none => errs) init) n).isSome) :
    (errorsGet init n).isSome ∨
      ∃ f, f ∈ fs ∧ f.name = n ∧
        checkFieldValue regexTest f (formGet form f.name) ≠ none := by
  induction fs generalizing init with
  | nil => exact .inl h
  | cons f fs ih =>
    simp only [List.foldl_cons] at h
    rcases hc : checkFieldValue regexTest f (formGet form f.name) with _ | msg
    · simp only [hc] at h
      rcases ih _ h with h' | ⟨g, hg, hn, hne⟩
      · exact .inl h'
      · exact .inr ⟨g, List.mem_cons_of_mem _ hg, hn, hne⟩
    · simp only [hc] at h
      rcases ih _ h with h' | ⟨g, hg, hn, hne⟩
      · rcases (errorsGet_isSome_iff _ _).1 h' with ⟨p, hp, hpn⟩
        rcases mem_insertOv hp with hp' | hp' | hp'
        · exact .inl ((errorsGet_isSome_iff _ _).2 ⟨p, hp', hpn⟩)
        · refine .inr ⟨f, List.mem_cons_self _ _, ?_, by simp [hc]⟩
          rw [hp'] at hpn
          exact hpn
        · exact .inr ⟨f, List.mem_cons_self _ _, hp' ▸ hpn, by simp [hc]⟩
      · exact .inr ⟨g, List.mem_cons_of_mem _ hg, hn, hne⟩

lemma validate_errors_from_required (regexTest : String → String → Bool)
    (form : List Field) (n : String)
    (h : (errorsGet (validate regexTest form).errors n).isSome) :
    ∃ f, f ∈ formRequiredFields form ∧ f.name = n ∧
      checkFieldValue regexTest f (formGet form f.name) ≠ none := by
  unfold validate at h
  rcases validate_fold_keys regexTest form _ _ _ h with h' | h'
  · simp [errorsGet] at h'
  · exact h'

lemma clearStep1_no_error (e : Elem) : "error" ∉ (clearStep1 e).classes := by
  unfold clearStep1 removeClass
  split
  · intro h
    rcases List.mem_filter.1 h with ⟨_, hne⟩
    simp at hne
  · intro h
    exact absurd h (by assumption)

lemma clearStep2_classes (e : Elem) : (clearStep2 e).classes = e.classes := by
  unfold clearStep2
  split <;> rfl

lemma clearStep2_msg (e : Elem) (h : "error-message" ∈ e.classes) :
    (clearStep2 e).textContent = "" ∧ (clearStep2 e).display = "none" := by
  unfold clearStep2
  rw [if_pos h]
  exact ⟨rfl, rfl⟩

lemma mem_clearErrors {d : List Elem} {e : Elem} (h : e ∈ clearErrors d) :
    ∃ x ∈ d, e = clearStep2 (clearStep1 x) := by
  unfold clearErrors at h
  rcases List.mem_map.1 h with ⟨y, hy, hye⟩
  rcases List.mem_map.1 hy with ⟨x, hx, hxy⟩
  exact ⟨x, hx, by rw [← hye, ← hxy]⟩

lemma clearStep1_of_no_error {e : Elem} (h : "error" ∉ e.classes) :
    clearStep1 e = e := by
  unfold clearStep1
  rw [if_neg h]

lemma clearStep2_idem (e : Elem) : clearStep2 (clearStep2 e) = clearStep2 e := by
  unfold clearStep2
  split <;> rfl

lemma clearErrors_idem (d : List Elem) :
    clearErrors (clearErrors d) = clearErrors d := by
  unfold clearErrors
  rw [List.map_map, List.map_map, List.map_map, List.map_map]
  apply List.map_congr_left
  intro e _
  show clearStep2 (clearStep1 (clearStep2 (clearStep1 e))) = clearStep2 (clearStep1 e)
  rw [clearStep1_of_no_error (by rw [clearStep2_classes]; exact clearStep1_no_error e),
    clearStep2_idem]

/-! ## The claims -/

/-- C1, counterexample: in a form whose one (required) field is of type
`email` with the invalid-shaped value `"abcde"` (length 5) and
`minlength=8`, the entry `validate` retains is the *min-length* message,
which differs from the email-format message — so the claim that the
email-shape violation overrides the later length rules is false on the
code. -/
theorem email_minlength_retains_email_msg_cex :
    errorsGet (validate (fun _ _ => true)
      [⟨"input", "email", "email", true, some 8, none, none, none, none, "abcde"⟩]).errors
      "email" = some (minLengthMessage 8) ∧ minLengthMessage 8 ≠ emailMessage := by
  decide

/-- C1 (amended): for every field of type `email` carrying `minlength=8`
(and no `maxlength`/`pattern` attribute) whose non-blank value has length 5
and an invalid email shape, the error entry the validator retains for the
field is the min-length message: the later length rule overwrites the
earlier email-format message (last matching rule wins). -/
theorem email_minlength_last_rule_wins (regexTest : String → String → Bool)
    (f : Field) (v : String)
    (htype : f.type = "email") (hmin : f.minlength = some 8)
    (hmax : f.maxlength = none) (hpat : f.pattern = none)
    (hinvalid : validateEmail v = false) (hlen : v.length = 5)
    (hblank : isBlank v = false) :
    checkFieldValue regexTest f (some v) = some (minLengthMessage 8) := by
  unfold checkFieldValue
  simp [htype, hmin, hmax, hpat, hinvalid, hlen, hblank]

/-- C1, witness: the amended statement evaluated on the concrete field of
the counterexample. -/
theorem email_minlength_last_rule_wins_witness :
    checkFieldValue (fun _ _ => true)
      ⟨"input", "email", "email", true, some 8, none, none, none, none, "abcde"⟩
      (some "abcde") = some (minLengthMessage 8) :=
  email_minlength_last_rule_wins (fun _ _ => true) _ "abcde" rfl rfl rfl rfl
    (by decide) (by decide) (by decide)

/-- C2, counterexample: a form whose only field carries `minlength=8` and
the too-short value `"ab"` but is not flagged `required` validates clean —
`validate` never examines it, contradicting the claim that fields with
length/pattern constraints are evaluated even when not required. -/
theorem nonrequired_constrained_field_skipped_cex :
    validate (fun _ _ => true)
      [⟨"input", "f", "text", false, some 8, none, none, none, none, "ab"⟩] =
      ⟨true, []⟩ := by
  decide

/-- C2 (amended): `validate(form)` evaluates exactly the
`input`/`textarea`/`select` elements flagged `required` (regardless of
their type); a field not flagged `required` is never examined, even when
it carries `minlength`, `maxlength` or `pattern` attributes, and every
entry of the error map comes from a required field. -/
theorem validate_scans_required_fields_only (regexTest : String → String → Bool)
    (form : List Field) :
    (∀ f : Field, f ∈ formRequiredFields form ↔
      f ∈ form ∧ f.required = true ∧ f.tag ∈ selTags) ∧
    (∀ n : String, (errorsGet (validate regexTest form).errors n).isSome →
      ∃ f, f ∈ form ∧ f.name = n ∧ f.required = true ∧ f.tag ∈ selTags) := by
  constructor
  · intro f
    unfold formRequiredFields
    rw [List.mem_filter]
    simp
  · intro n h
    rcases validate_errors_from_required regexTest form n h with ⟨f, hf, hn, _⟩
    rw [formRequiredFields, List.mem_filter] at hf
    obtain ⟨hmem, hcond⟩ := hf
    rw [Bool.and_eq_true] at hcond
    exact ⟨f, hmem, hn, hcond.1, by simpa using hcond.2⟩

/-- C3: when every attempt fails, `fetchWithErrorHandling` performs exactly
`maxRetries = 3` attempts, waits the two backoff delays, produces one toast
classifying the *final* attempt's error through `handleNetworkError`
(timeout message for an `AbortError`, offline message when
`navigator.onLine` is false, else the generic connection message), runs the
diagnostic log, and propagates the final error to the caller. -/
theorem fetch_exhaustion_classifies_last (α : Type) (onLine : Bool)
    (attempts : Nat → AttemptResult α) (e1 e2 e3 : JsError)
    (h1 : attempts 1 = .fail e1) (h2 : attempts 2 = .fail e2)
    (h3 : attempts 3 = .fail e3) :
    fetchWithErrorHandling onLine attempts =
      ⟨3, [1000, 2000], .thrown e3, some (handleNetworkError onLine e3), true⟩ := by
  simp [fetchWithErrorHandling, maxRetries, retryDelay, fetchGo, h1, h2, h3]

/-- C3, witness: three aborts in a row. -/
theorem fetch_exhaustion_classifies_last_witness :
    fetchWithErrorHandling (α := Nat) true (fun _ => .fail ⟨"AbortError"⟩) =
      ⟨3, [1000, 2000], .thrown ⟨"AbortError"⟩,
        some (handleNetworkError true ⟨"AbortError"⟩), true⟩ :=
  fetch_exhaustion_classifies_last Nat true (fun _ => .fail ⟨"AbortError"⟩)
    ⟨"AbortError"⟩ ⟨"AbortError"⟩ ⟨"AbortError"⟩ rfl rfl rfl

/-- C4: on every call, the delays awaited are exactly `retryDelay * i` for
`i = 1, …, attemptsMade - 1` in that order — `1000·i` ms after each failed
non-final attempt `i`, and no delay after the final attempt. -/
theorem fetch_backoff_linear (α : Type) (onLine : Bool)
    (attempts : Nat → AttemptResult α) :
    (fetchWithErrorHandling onLine attempts).delays =
      (List.range ((fetchWithErrorHandling onLine attempts).attemptsMade - 1)).map
        (fun i => retryDelay * (i + 1)) := by
  rcases h1 : attempts 1 with p1 | e1
  · simp [fetchWithErrorHandling, maxRetries, fetchGo, h1]
  · rcases h2 : attempts 2 with p2 | e2
    · simp [fetchWithErrorHandling, maxRetries, retryDelay, fetchGo, h1, h2,
        List.range_succ]
    · rcases h3 : attempts 3 with p3 | e3 <;>
        simp [fetchWithErrorHandling, maxRetries, retryDelay, fetchGo, h1, h2, h3,
          List.range_succ]

/-- C5: a call whose attempt `k ≤ 3` succeeds (transport success and the
body decoded) returns that payload, performs exactly `k` attempts, awaits
only the `k - 1` delays that preceded the earlier failed attempts, emits no
toast and writes no diagnostic log. -/
theorem fetch_success_stops (α : Type) (onLine : Bool)
    (attempts : Nat → AttemptResult α) (p : α) (k : Nat)
    (hk1 : 1 ≤ k) (hk3 : k ≤ 3) (hok : attempts k = .ok p)
    (hfail : ∀ j, 1 ≤ j → j < k → ∃ e, attempts j = .fail e) :
    fetchWithErrorHandling onLine attempts =
      ⟨k, (List.range (k - 1)).map (fun i => retryDelay * (i + 1)),
        .success p, none, false⟩ := by
  interval_cases k
  · simp [fetchWithErrorHandling, maxRetries, fetchGo, hok]
  · obtain ⟨e1, h1⟩ := hfail 1 (by norm_num) (by norm_num)
    simp [fetchWithErrorHandling, maxRetries, retryDelay, fetchGo, h1, hok,
      List.range_succ]
  · obtain ⟨e1, h1⟩ := hfail 1 (by norm_num) (by norm_num)
    obtain ⟨e2, h2⟩ := hfail 2 (by norm_num) (by norm_num)
    simp [fetchWithErrorHandling, maxRetries, retryDelay, fetchGo, h1, h2, hok,
      List.range_succ]

/-- C5, witness: one failure, then success on attempt 2. -/
theorem fetch_success_stops_witness :
    fetchWithErrorHandling (α := Nat) true
      (fun i => if i = 1 then .fail ⟨"TypeError"⟩ else .ok 7) =
      ⟨2, [1000], .success 7, none, false⟩ := by
  simpa using fetch_success_stops Nat true
    (fun i => if i = 1 then .fail ⟨"TypeError"⟩ else .ok 7) 7 2
    (by norm_num) (by norm_num) rfl
    (by
      intro j hj1 hj2
      interval_cases j
      exact ⟨⟨"TypeError"⟩, rfl⟩)

/-- C6: `validate` answers `valid = true` exactly when the error map is
empty; an empty / whitespace-only (or missing) value yields the
required-field message with no further rules evaluated, whatever the other
attributes; every error entry stems from a required field whose check
violated some rule (so a rule-abiding field leaves no entry); and the
concrete form of one required blank field and one valid field yields
`valid = false` with only the blank field in the map. -/
theorem validate_valid_iff_no_errors (regexTest : String → String → Bool)
    (form : List Field) :
    ((validate regexTest form).valid = true ↔ (validate regexTest form).errors = []) ∧
    (∀ (f : Field) (v : Option String),
      (v = none ∨ ∃ s, v = some s ∧ isBlank s = true) →
      checkFieldValue regexTest f v = some (requiredMessage f)) ∧
    (∀ n : String, (errorsGet (validate regexTest form).errors n).isSome →
      ∃ f, f ∈ formRequiredFields form ∧ f.name = n ∧
        checkFieldValue regexTest f (formGet form f.name) ≠ none) ∧
    validate (fun _ _ => true)
      [⟨"input", "user", "text", true, none, none, none, none, none, "   "⟩,
       ⟨"input", "pass", "text", true, none, none, none, none, none, "hello"⟩] =
      ⟨false, [("user", requiredMessage
        ⟨"input", "user", "text", true, none, none, none, none, none, "   "⟩)]⟩ := by
  refine ⟨?_, ?_, validate_errors_from_required regexTest form, ?_⟩
  · show (validate regexTest form).errors.isEmpty = true ↔ _
    rw [List.isEmpty_iff]
  · rintro f v (rfl | ⟨s, rfl, hs⟩)
    · rfl
    · unfold checkFieldValue
      simp [hs]
  · decide

/-- C7: `validateEmail` is a pure boolean predicate deciding exactly the
specified shape — a nonempty run of non-whitespace/non-`@` characters,
`@`, another such run, `.`, another such run — and on the sample inputs:
`"a@b.co"` is accepted, `"a@b"` and `"a b@c.com"` are rejected. -/
theorem validateEmail_decides_shape :
    (∀ s : String, validateEmail s = true ↔ EmailShape s) ∧
    validateEmail "a@b.co" = true ∧
    validateEmail "a@b" = false ∧
    validateEmail "a b@c.com" = false :=
  ⟨validateEmail_iff_shape, by decide, by decide, by decide⟩

/-- C8: after `displayErrors errors` followed by `clearErrors`, no element
keeps the `error` class and every `error-message` element has empty text
and `display: none`; and `clearErrors` is idempotent from any document
state. -/
theorem clearErrors_resets_display (errors : List (String × String)) (d : List Elem) :
    (∀ e ∈ clearErrors (displayErrors errors d),
      "error" ∉ e.classes ∧
      ("error-message" ∈ e.classes → e.textContent = "" ∧ e.display = "none")) ∧
    (∀ d' : List Elem, clearErrors (clearErrors d') = clearErrors d') := by
  constructor
  · intro e he
    rcases mem_clearErrors he with ⟨x, _, rfl⟩
    refine ⟨?_, ?_⟩
    · rw [clearStep2_classes]
      exact clearStep1_no_error x
    · intro hm
      rw [clearStep2_classes] at hm
      exact clearStep2_msg _ hm
  · exact clearErrors_idem

/-- C9: in every reachable state of the `updateStats` transition system the
number of in-flight update cycles equals 1 when `isUpdating` is set and 0
otherwise — two cycles never overlap; while the flag is set a tick cannot
begin a cycle (no fetch) and a skipped tick leaves the state (including
the displayed statistics) untouched; beginning a cycle sets the flag and
ending one clears it on its (only) exit path. -/
theorem updateStats_reentrancy_guard (s : StatsState) (h : StatsReachable s) :
    (s.running = if s.isUpdating then 1 else 0) ∧
    (s.isUpdating = true →
      (∀ t, ¬ UpdateStep s UpdateLabel.beginCycle t) ∧
      (∀ t, UpdateStep s UpdateLabel.skipTick t → t = s)) ∧
    (∀ t, UpdateStep s UpdateLabel.beginCycle t → t.isUpdating = true) ∧
    (∀ t, UpdateStep s UpdateLabel.endCycle t → t.isUpdating = false) := by
  refine ⟨?_, ?_, ?_, ?_⟩
  · induction h with
    | refl => rfl
    | tail hab step ih =>
      rcases step with ⟨l, st⟩
      cases st with
      | skip hflag => exact ih
      | start hflag =>
        simp only [hflag, Bool.false_eq_true, if_false] at ih
        simp [ih]
      | finish shown hrun =>
        split at ih
        · simp [ih]
        · rw [ih] at hrun
          exact absurd hrun (lt_irrefl 0)
  · intro hflag
    constructor
    · intro t hstep
      cases hstep with
      | start h0 => rw [hflag] at h0; cases h0
    · intro t hstep
      cases hstep with
      | skip _ => rfl
  · intro t hstep
    cases hstep with
    | start _ => rfl
  · intro t hstep
    cases hstep with
    | finish _ _ => rfl

/-- C9, witness: the guard properties at the constructor's state. -/
theorem updateStats_reentrancy_guard_witness :
    (statsInit.running = if statsInit.isUpdating then 1 else 0) ∧
    (statsInit.isUpdating = true →
      (∀ t, ¬ UpdateStep statsInit UpdateLabel.beginCycle t) ∧
      (∀ t, UpdateStep statsInit UpdateLabel.skipTick t → t = statsInit)) ∧
    (∀ t, UpdateStep statsInit UpdateLabel.beginCycle t → t.isUpdating = true) ∧
    (∀ t, UpdateStep statsInit UpdateLabel.endCycle t → t.isUpdating = false) :=
  updateStats_reentrancy_guard statsInit Relation.ReflTransGen.refl

/-- C10: `getOnlinePlayersCount` is total — no input makes it rethrow — and
behaves as claimed: a thrown fetch returns `lastKnownCount` unchanged
(`none` when nothing was ever recorded); a fetch whose data lacks a numeric
`onlinePlayers` returns `lastKnownCount`, or `0` when there is none,
without touching the stored count; and the stored count is monotone —
it is `none` afterwards only if it was `none` before, and any stored
number is either the previous one or the numeric payload just fetched. -/
theorem getOnlinePlayersCount_never_throws (lkc : Option Int)
    (r : FetchRes (Option StatsData)) :
    (∀ e, r = .thrown e → getOnlinePlayersCount lkc r = (lkc, lkc)) ∧
    (∀ d, r = .success d →
      (∀ data n, d = some data → data.onlinePlayers ≠ some (.num n)) →
      getOnlinePlayersCount lkc r = (some (lkc.getD 0), lkc)) ∧
    ((getOnlinePlayersCount lkc r).2 = none → lkc = none) ∧
    (∀ n : Int, (getOnlinePlayersCount lkc r).2 = some n →
      lkc = some n ∨ ∃ data, r = .success (some data) ∧
        data.onlinePlayers = some (.num n)) := by
  refine ⟨?_, ?_, ?_, ?_⟩
  · rintro e rfl
    rfl
  · rintro d rfl hno
    rcases d with _ | data
    · rfl
    · rcases hd : data.onlinePlayers with _ | jv
      · simp [getOnlinePlayersCount, hd]
      · rcases jv with n | _
        · exact absurd hd (hno data n rfl)
        · simp [getOnlinePlayersCount, hd]
  · rcases r with d | e | _
    · rcases d with _ | data
      · exact fun h => h
      · rcases hd : data.onlinePlayers with _ | jv
        · simp [getOnlinePlayersCount, hd]
        · rcases jv with n | _ <;> simp [getOnlinePlayersCount, hd]
    · exact fun h => h
    · exact fun h => h
  · intro n
    rcases r with d | e | _
    · rcases d with _ | data
      · exact fun h => .inl h
      · rcases hd : data.onlinePlayers with _ | jv
        · simp [getOnlinePlayersCount, hd]
        · rcases jv with m | _
          · simp only [getOnlinePlayersCount, hd]
            intro h
            obtain rfl : m = n := by injection h
            exact .inr ⟨data, rfl, hd⟩
          · simp [getOnlinePlayersCount, hd]
    · exact fun h => .inl h
    · exact fun h => .inl h

end Asta
